import Mathlib

/-!
Shallow embedding of `main.py` from the readme_generation repository.

Python strings are modelled as lists of code points (`PyStr`), so that
`str.splitlines(keepends=True)`, `str.strip()`, `str.lower()` and string
concatenation become `List` operations.  Fallible Python code is modelled
with `Except`, where `Except.error` stands for an uncaught Python exception
propagating out of the modelled function, and `Except.ok` for a normal
return.  Filesystem trees are modelled explicitly so that `os.walk` with
top-down pruning becomes a structural recursion.
-/

/-- Python `str`, as a list of code points. -/
abbrev PyStr := List Char

/-- Characters treated as line boundaries by Python `str.splitlines`. -/
def pyIsLineBreak (c : Char) : Bool :=
  c == '\n' || c == '\r' || c == '\x0b' || c == '\x0c' ||
  c == '\x1c' || c == '\x1d' || c == '\x1e' || c == '\x85' ||
  c == '\u2028' || c == '\u2029'

/-- Characters stripped by Python `str.strip()` (the `str.isspace` set). -/
def pyIsSpace (c : Char) : Bool :=
  c == ' ' || c == '\t' || c == '\n' || c == '\x0b' || c == '\x0c' ||
  c == '\r' || c == '\x1c' || c == '\x1d' || c == '\x1e' || c == '\x1f' ||
  c == '\x85' || c == '\xa0' || c == '\u1680' ||
  ('\u2000' ≤ c && c ≤ '\u200a') ||
  c == '\u2028' || c == '\u2029' || c == '\u202f' || c == '\u205f' ||
  c == '\u3000'

/-- Helper for `pySplitlines`: `acc` holds the current (reversed) line.
A `"\r\n"` pair is one terminator; any other line-break character ends a
line by itself, exactly as in CPython `str.splitlines(keepends=True)`. -/
def splitlinesAux : List Char → List Char → List PyStr
  | [], acc => if acc.isEmpty then [] else [acc.reverse]
  | [c], acc =>
    if pyIsLineBreak c then [acc.reverse ++ [c]]
    else [(c :: acc).reverse]
  | c1 :: c2 :: rest, acc =>
    if c1 = '\r' ∧ c2 = '\n' then
      (acc.reverse ++ ['\r', '\n']) :: splitlinesAux rest []
    else if pyIsLineBreak c1 then
      (acc.reverse ++ [c1]) :: splitlinesAux (c2 :: rest) []
    else splitlinesAux (c2 :: rest) (c1 :: acc)

/-- Python `s.splitlines(keepends=True)`. -/
def pySplitlines (s : PyStr) : List PyStr :=
  splitlinesAux s []

/-- Python `s.strip()` with no argument: drop leading and trailing
whitespace. -/
def pyStrip (s : PyStr) : PyStr :=
  ((s.dropWhile pyIsSpace).reverse.dropWhile pyIsSpace).reverse

/-- Per-character model of Python `str.lower`.  ASCII letters are
lowercased by `Char.toLower`; U+212A (Kelvin sign) is the one non-ASCII
code point whose Python lowercase form is a single ASCII letter, so it is
handled explicitly.  Other code points are kept unchanged, which agrees
with Python on every comparison against a pure-ASCII target performed in
`clean_ai_output`. -/
def pyToLower (c : Char) : Char :=
  if c == '\u212a' then 'k' else Char.toLower c

/-- Python `s.lower()` (restricted as documented at `pyToLower`). -/
def pyLower (s : PyStr) : PyStr :=
  s.map pyToLower

/-- Python `"".join(lines)`. -/
def pyJoin : List PyStr → PyStr
  | [] => []
  | l :: ls => l ++ pyJoin ls

/-- The string literal constant used at line 183 of `main.py`. -/
def mdFenceStr : String := "```markdown"

/-- The string literal constant used at lines 183 and 185 of `main.py`. -/
def bareFenceStr : String := "```"

/-- List-of-characters form of the tagged fence opener. -/
def mdFenceS : PyStr := mdFenceStr.data

/-- List-of-characters form of the bare triple fence. -/
def bareFenceS : PyStr := bareFenceStr.data

/-- The test applied to the first line at line 183 of `main.py`:
`first_line_stripped.lower() == "markdown fence" or first_line_stripped
== "bare fence"`. -/
def isFenceLine (l : PyStr) : Bool :=
  (pyLower (pyStrip l) == mdFenceS) || (pyStrip l == bareFenceS)

/-- The test applied to the last line at line 185 of `main.py`:
`last_line_stripped.lower() == "bare fence"`. -/
def closingFenceCheck (l : PyStr) : Bool :=
  pyLower (pyStrip l) == bareFenceS

/-- Lines 177-191 of `main.py`: decide the fence flags from the first and
last line and take `lines[1:-1]` when both flags are set and there are at
least two lines; otherwise keep the lines unchanged. -/
def cleanLines : List PyStr → List PyStr
  | [] => []
  | l0 :: rest =>
    if isFenceLine l0 = true ∧
        (isFenceLine l0 && closingFenceCheck (List.getLastD rest l0)) = true ∧
        2 ≤ (l0 :: rest).length then
      ((l0 :: rest).drop 1).dropLast
    else l0 :: rest

/-- `clean_ai_output` from `main.py` (lines 159-195). -/
def clean_ai_output (s : PyStr) : PyStr :=
  if s.isEmpty then [] else
  if (pySplitlines s).isEmpty then [] else
  pyJoin (cleanLines (pySplitlines s))

theorem pyJoin_append (a b : List PyStr) :
    pyJoin (a ++ b) = pyJoin a ++ pyJoin b := by
  induction a with
  | nil => rfl
  | cons l ls ih => simp [pyJoin, ih]

theorem pyJoin_splitlinesAux (cs acc : List Char) :
    pyJoin (splitlinesAux cs acc) = acc.reverse ++ cs := by
  induction cs, acc using splitlinesAux.induct with
  | case1 acc h =>
    rw [splitlinesAux]
    simp only [List.isEmpty_iff] at h
    simp [h, pyJoin]
  | case2 acc h =>
    rw [splitlinesAux]
    simp [h, pyJoin]
  | case3 c acc h =>
    rw [splitlinesAux]
    simp [h, pyJoin]
  | case4 c acc h =>
    rw [splitlinesAux]
    simp [h, pyJoin]
  | case5 c1 c2 rest acc hrn ih =>
    obtain ⟨h1, h2⟩ := hrn
    rw [splitlinesAux, if_pos (And.intro h1 h2)]
    simp [pyJoin, ih, h1, h2]
  | case6 c1 c2 rest acc hrn hbr ih =>
    rw [splitlinesAux, if_neg hrn, if_pos hbr]
    simp [pyJoin, ih]
  | case7 c1 c2 rest acc hrn hbr ih =>
    rw [splitlinesAux, if_neg hrn, if_neg hbr]
    simp [pyJoin, ih]

/-- Joining the kept-ends lines recovers the original string. -/
theorem pyJoin_pySplitlines (s : PyStr) : pyJoin (pySplitlines s) = s := by
  simpa using pyJoin_splitlinesAux s []

theorem pySplitlines_nil : pySplitlines [] = [] := rfl

theorem pySplitlines_ne_nil {s : PyStr} (h : s ≠ []) : pySplitlines s ≠ [] := by
  intro hl
  apply h
  have := pyJoin_pySplitlines s
  rw [hl] at this
  simpa [pyJoin] using this.symm

theorem clean_ai_output_of_ne_nil {s : PyStr} (h : s ≠ []) :
    clean_ai_output s = pyJoin (cleanLines (pySplitlines s)) := by
  have h2 := pySplitlines_ne_nil h
  simp [clean_ai_output, List.isEmpty_iff, h, h2]

/-- Example input of the spec: a markdown-tagged fenced body. -/
def exBodyStr : String := "```markdown\nBODY\n```"

/-- Expected sanitizer output for `exBodyStr`. -/
def exBodyOutStr : String := "BODY\n"

/-- A two-line input holding only an opening and a closing fence. -/
def exFencePairStr : String := "```\n```"

/-- A fence-free two-line input. -/
def exCleanStr : String := "hello\nworld\n"

/-- C2: for every input with at least two lines whose first line, stripped,
case-insensitively equals the markdown-tagged fence or equals the bare
fence, and whose last line, stripped, equals the bare fence,
`clean_ai_output` returns the join of all lines but the first and last,
each kept verbatim with its terminator; in particular the markdown-fenced
BODY example maps to BODY followed by a newline. -/
theorem c2_theorem (s : PyStr)
    (hlen : 2 ≤ (pySplitlines s).length)
    (hfirst : pyLower (pyStrip ((pySplitlines s).headD [])) = mdFenceS ∨
      pyStrip ((pySplitlines s).headD []) = bareFenceS)
    (hlast : pyStrip ((pySplitlines s).getLastD []) = bareFenceS) :
    clean_ai_output s = pyJoin (((pySplitlines s).drop 1).dropLast) ∧
    clean_ai_output exBodyStr.data = exBodyOutStr.data := by
  constructor
  · have hs : s ≠ [] := by
      intro h
      rw [h, pySplitlines_nil] at hlen
      simp at hlen
    rw [clean_ai_output_of_ne_nil hs]
    obtain ⟨l0, rest, hl⟩ : ∃ l0 rest, pySplitlines s = l0 :: rest := by
      cases hsp : pySplitlines s with
      | nil => rw [hsp] at hlen; simp at hlen
      | cons a b => exact ⟨a, b, rfl⟩
    rw [hl] at hfirst hlast hlen ⊢
    simp only [List.headD_cons] at hfirst
    rw [List.getLastD_cons] at hlast
    rw [cleanLines, if_pos]
    refine ⟨?_, ?_, hlen⟩
    · rw [isFenceLine]
      rcases hfirst with h | h
      · rw [h]; simp
      · rw [h]; simp
    · have hf : isFenceLine l0 = true := by
        rw [isFenceLine]
        rcases hfirst with h | h
        · rw [h]; simp
        · rw [h]; simp
      have hc : closingFenceCheck (List.getLastD rest l0) = true := by
        rw [closingFenceCheck, hlast]
        decide
      rw [hf, hc]
      rfl
  · decide

/-- C2 witness: the theorem applied to the concrete markdown-fenced BODY
example. -/
theorem c2_witness :
    (2 ≤ (pySplitlines exBodyStr.data).length ∧
      (pyLower (pyStrip ((pySplitlines exBodyStr.data).headD [])) = mdFenceS ∨
        pyStrip ((pySplitlines exBodyStr.data).headD []) = bareFenceS) ∧
      pyStrip ((pySplitlines exBodyStr.data).getLastD []) = bareFenceS) ∧
    clean_ai_output exBodyStr.data =
      pyJoin (((pySplitlines exBodyStr.data).drop 1).dropLast) := by
  refine ⟨⟨by decide, by decide, by decide⟩, ?_⟩
  exact (c2_theorem exBodyStr.data (by decide) (by decide) (by decide)).1

/-- C8: the sanitizer maps the empty string to the empty string, leaves
every string with no fence line unchanged, and hence is idempotent on such
strings. -/
theorem c8_theorem :
    clean_ai_output [] = [] ∧
    ∀ s : PyStr, (∀ l ∈ pySplitlines s, isFenceLine l = false) →
      clean_ai_output s = s ∧
        clean_ai_output (clean_ai_output s) = clean_ai_output s := by
  refine ⟨rfl, ?_⟩
  intro s hnf
  have huc : clean_ai_output s = s := by
    by_cases hs : s = []
    · rw [hs]; rfl
    · rw [clean_ai_output_of_ne_nil hs]
      cases hsp : pySplitlines s with
      | nil => exact absurd hsp (pySplitlines_ne_nil hs)
      | cons l0 rest =>
        rw [cleanLines, if_neg]
        · rw [← hsp, pyJoin_pySplitlines]
        · intro hcond
          have hmem : l0 ∈ pySplitlines s := by
            rw [hsp]
            exact List.mem_cons_self l0 rest
          have := hnf l0 hmem
          rw [this] at hcond
          exact absurd hcond.1 (by simp)
  exact ⟨huc, by rw [huc, huc]⟩

/-- C8 witness: the theorem applied to a concrete fence-free string. -/
theorem c8_witness :
    (∀ l ∈ pySplitlines exCleanStr.data, isFenceLine l = false) ∧
    clean_ai_output exCleanStr.data = exCleanStr.data ∧
    clean_ai_output (clean_ai_output exCleanStr.data) =
      clean_ai_output exCleanStr.data := by
  have h : ∀ l ∈ pySplitlines exCleanStr.data, isFenceLine l = false := by decide
  exact ⟨h, c8_theorem.2 exCleanStr.data h⟩

/-- C9: `clean_ai_output` either returns its input unchanged or returns
the join of all lines except the first and last (which requires at least
two lines); every at-most-one-line input is unchanged, a lone bare fence
line is unchanged, and the two-line fence pair yields the empty string. -/
theorem c9_theorem :
    (∀ s : PyStr, clean_ai_output s = s ∨
      (2 ≤ (pySplitlines s).length ∧
        clean_ai_output s = pyJoin (((pySplitlines s).drop 1).dropLast))) ∧
    (∀ s : PyStr, (pySplitlines s).length ≤ 1 → clean_ai_output s = s) ∧
    clean_ai_output bareFenceS = bareFenceS ∧
    clean_ai_output exFencePairStr.data = [] := by
  have hmain : ∀ s : PyStr, clean_ai_output s = s ∨
      (2 ≤ (pySplitlines s).length ∧
        clean_ai_output s = pyJoin (((pySplitlines s).drop 1).dropLast)) := by
    intro s
    by_cases hs : s = []
    · left; rw [hs]; rfl
    · rw [clean_ai_output_of_ne_nil hs]
      cases hsp : pySplitlines s with
      | nil => exact absurd hsp (pySplitlines_ne_nil hs)
      | cons l0 rest =>
        rw [cleanLines]
        by_cases hcond : isFenceLine l0 = true ∧
            (isFenceLine l0 && closingFenceCheck (List.getLastD rest l0)) = true ∧
            2 ≤ (l0 :: rest).length
        · right
          rw [if_pos hcond]
          exact ⟨hcond.2.2, rfl⟩
        · left
          rw [if_neg hcond, ← hsp, pyJoin_pySplitlines]
  have hshort : ∀ s : PyStr, (pySplitlines s).length ≤ 1 → clean_ai_output s = s := by
    intro s hlen
    rcases hmain s with h | h
    · exact h
    · omega
  exact ⟨hmain, hshort, by decide, by decide⟩

/-- C9 witness: the theorem applied to the concrete lone bare fence line. -/
theorem c9_witness :
    (pySplitlines bareFenceS).length ≤ 1 ∧
    clean_ai_output bareFenceS = bareFenceS :=
  ⟨by decide, c9_theorem.2.1 bareFenceS (by decide)⟩

/-- Python `filename.startswith(".")` on a possibly empty name. -/
def startswithDot : PyStr → Bool
  | [] => false
  | c :: _ => c == '.'

/-- Lines 30-31 of `main.py`. -/
def IGNORE_DIRS : List PyStr :=
  [ ".venv".data, "venv".data, "myenv".data, "__pycache__".data,
    "node_modules".data, "build".data, "dist".data, "target".data,
    ".codecrafters".data, ".next".data ]

/-- Line 32 of `main.py`. -/
def IGNORE_EXTENSIONS : List PyStr :=
  [ ".o".data, ".dll".data, ".exe".data, ".yml".data ]

/-- Line 33 of `main.py`. -/
def IGNORE_FILES : List PyStr :=
  [ "Cargo.lock".data, "Cargo.toml".data, "package-lock.json".data,
    "requirements.txt".data ]

/-- Index of the last dot of a name, if any. -/
def lastIndexOfDot : PyStr → Option Nat
  | [] => none
  | c :: rest =>
    match lastIndexOfDot rest with
    | some i => some (i + 1)
    | none => if c == '.' then some 0 else none

/-- The extension component of `os.path.splitext(filename)` for a
separator-free file name: everything from the last dot on, except that a
name consisting of leading dots only up to that dot (such as a hidden
file with no further dot) has no extension. -/
def splitext_ext (n : PyStr) : PyStr :=
  match lastIndexOfDot n with
  | none => []
  | some i => if (n.take i).any (fun c => c != '.') then n.drop i else []

/-- The claim wording of an extension: the substring from the last dot to
the end, including the dot (empty when the name has no dot). -/
def lastDotExt (n : PyStr) : PyStr :=
  match lastIndexOfDot n with
  | none => []
  | some i => n.drop i

/-- `os.path.join(a, b)` for a relative prefix `a` and a separator-free
component `b`: `b` when `a` is empty, otherwise `a`, a slash, and `b`. -/
def pyJoinPath (a b : PyStr) : PyStr :=
  if a.isEmpty then b else a ++ ('/' :: b)

/-- A regular file of the modelled filesystem.  `content = some c` means
opening and reading the file yields `c` (after the lenient decoding of
line 76 of `main.py`); `content = none` means `open` raises an `OSError`,
which line 80 of `main.py` catches, logs and skips. -/
structure FSFile where
  name : PyStr
  content : Option PyStr
deriving DecidableEq

mutual
inductive FSTree : Type where
  | node (dname : PyStr) (files : List FSFile) (subdirs : FSForest) : FSTree
inductive FSForest : Type where
  | fnil : FSForest
  | fcons (hd : FSTree) (tl : FSForest) : FSForest
end

/-- Name of a directory node. -/
def FSTree.dname : FSTree → PyStr
  | .node n _ _ => n

/-- Line 57 of `main.py`: a subdirectory survives the in-place filtering
of `dirs` when it is not in `IGNORE_DIRS` and does not start with a dot. -/
def dirKept (d : PyStr) : Bool :=
  !(IGNORE_DIRS.contains d) && !(startswithDot d)

/-- Lines 64-81 of `main.py`: the per-directory file loop.  A file is
skipped when its name is in `IGNORE_FILES` or starts with a dot, or when
its `splitext` extension is in `IGNORE_EXTENSIONS`; an unreadable file
(see `FSFile.content`) is skipped by the `except` clause; otherwise the
pair of its joined relative path and its content is recorded. -/
def processFiles (relative_root : PyStr) : List FSFile → List (PyStr × PyStr)
  | [] => []
  | f :: fs =>
    if IGNORE_FILES.contains f.name || startswithDot f.name then
      processFiles relative_root fs
    else if IGNORE_EXTENSIONS.contains (splitext_ext f.name) then
      processFiles relative_root fs
    else
      match f.content with
      | some content =>
        (pyJoinPath relative_root f.name, content) :: processFiles relative_root fs
      | none => processFiles relative_root fs

mutual
/-- Lines 55-81 of `main.py`, `os.walk(directory_path, topdown=True)`
fused with the loop body: visit the directory itself (its file loop), then
recurse into exactly the subdirectories kept by the line-57 filtering, in
order, extending the relative root. -/
def walkTree (rel : PyStr) : FSTree → List (PyStr × PyStr)
  | .node _ files subdirs => processFiles rel files ++ walkForest rel subdirs
/-- Walk of a list of sibling subdirectories, skipping pruned ones. -/
def walkForest (rel : PyStr) : FSForest → List (PyStr × PyStr)
  | .fnil => []
  | .fcons d ds =>
    (if dirKept d.dname then walkTree (pyJoinPath rel d.dname) d else []) ++
      walkForest rel ds
end

/-- Message printed at line 51 of `main.py`. -/
def dirNotFoundMsg (directory_path : PyStr) : PyStr :=
  "Error: Directory not found: ".data ++ directory_path

/-- Message printed at line 84 of `main.py` (source spelling kept). -/
def noFilesWarnS : PyStr :=
  "Warning: No relevant files found or read in the specfied directory.".data

/-- `read_codebase` from `main.py` (lines 35-87).  The filesystem seen at
`directory_path` is passed explicitly: `none` models a path that is not a
directory (in which case `os.walk` yields nothing and only the error is
printed), `some t` models the directory tree `t`.  The result is the
`code_contents` mapping in insertion order, paired with the list of
messages printed to `stderr`; the function always returns (nothing in the
source can raise here). -/
def read_codebase (directory_path : PyStr) (fs : Option FSTree) :
    List (PyStr × PyStr) × List PyStr :=
  let errs := match fs with
    | none => [dirNotFoundMsg directory_path]
    | some _ => []
  let code_contents := match fs with
    | none => []
    | some t => walkTree [] t
  let warns := if code_contents.isEmpty then [noFilesWarnS] else []
  (code_contents, errs ++ warns)

mutual
/-- Remove every ignored subdirectory (at every depth) from a tree,
keeping all files. -/
def pruneT : FSTree → FSTree
  | .node n fs ds => .node n fs (pruneF ds)
/-- Forest version of `pruneT`. -/
def pruneF : FSForest → FSForest
  | .fnil => .fnil
  | .fcons d ds =>
    if dirKept d.dname then .fcons (pruneT d) (pruneF ds) else pruneF ds
end

/-- True when a name holds no path separator (all real file names do). -/
def slashFree (n : PyStr) : Bool :=
  n.all (fun c => c != '/')

mutual
/-- All file names in the tree are separator-free. -/
def filesOkT : FSTree → Bool
  | .node _ fs ds => fs.all (fun f => slashFree f.name) && filesOkF ds
/-- Forest version of `filesOkT`. -/
def filesOkF : FSForest → Bool
  | .fnil => true
  | .fcons d ds => filesOkT d && filesOkF ds
end

/-- The final path component: everything after the last slash. -/
def pyBasename (p : PyStr) : PyStr :=
  (p.reverse.takeWhile (fun c => c != '/')).reverse

theorem pruneT_dname (t : FSTree) : (pruneT t).dname = t.dname := by
  cases t with
  | node n fs ds => rfl

mutual
theorem walkTree_pruneT : ∀ (rel : PyStr) (t : FSTree),
    walkTree rel (pruneT t) = walkTree rel t
  | rel, .node n fs ds => by
    rw [pruneT, walkTree, walkTree, walkForest_pruneF rel ds]
theorem walkForest_pruneF : ∀ (rel : PyStr) (f : FSForest),
    walkForest rel (pruneF f) = walkForest rel f
  | rel, .fnil => rfl
  | rel, .fcons d ds => by
    rw [pruneF]
    by_cases h : dirKept d.dname = true
    · rw [if_pos h, walkForest, walkForest, pruneT_dname, if_pos h, if_pos h,
        walkTree_pruneT (pyJoinPath rel d.dname) d, walkForest_pruneF rel ds]
    · rw [if_neg h, walkForest_pruneF rel ds, walkForest, if_neg h,
        List.nil_append]
end

theorem pyJoinPath_inj_right {r a b : PyStr}
    (h : pyJoinPath r a = pyJoinPath r b) : a = b := by
  by_cases hr : r.isEmpty = true
  · simpa [pyJoinPath, hr] using h
  · rw [pyJoinPath, pyJoinPath, if_neg hr, if_neg hr] at h
    have h2 := List.append_cancel_left h
    exact List.tail_eq_of_cons_eq h2

theorem lastIndexOfDot_zero {n : PyStr} (h : lastIndexOfDot n = some 0) :
    startswithDot n = true := by
  cases n with
  | nil => simp [lastIndexOfDot] at h
  | cons c rest =>
    rw [lastIndexOfDot] at h
    cases hr : lastIndexOfDot rest with
    | some i => rw [hr] at h; simp at h
    | none =>
      rw [hr] at h
      by_cases hc : (c == '.') = true
      · rw [startswithDot, hc]
      · rw [if_neg hc] at h; cases h

theorem splitext_eq_lastDotExt {n : PyStr} (h : startswithDot n = false) :
    splitext_ext n = lastDotExt n := by
  cases hli : lastIndexOfDot n with
  | none => simp [splitext_ext, lastDotExt, hli]
  | some i =>
    cases i with
    | zero =>
      have := lastIndexOfDot_zero hli
      rw [this] at h
      cases h
    | succ k =>
      simp only [splitext_ext, lastDotExt, hli]
      rw [if_pos]
      cases n with
      | nil => simp [lastIndexOfDot] at hli
      | cons c rest =>
        have hc : (c == '.') = false := by
          cases hcc : (c == '.') with
          | false => rfl
          | true => rw [startswithDot, hcc] at h; cases h
        rw [List.take_succ_cons]
        simp only [List.any_cons, Bool.or_eq_true, bne_iff_ne]
        exact Or.inl (by simpa using hc)

theorem processFiles_mem {rel : PyStr} {files : List FSFile} {kv : PyStr × PyStr}
    (h : kv ∈ processFiles rel files) :
    ∃ g ∈ files, kv.1 = pyJoinPath rel g.name ∧ g.content = some kv.2 ∧
      (IGNORE_FILES.contains g.name || startswithDot g.name) = false ∧
      IGNORE_EXTENSIONS.contains (splitext_ext g.name) = false := by
  induction files with
  | nil => rw [processFiles] at h; cases h
  | cons f fs ih =>
    rw [processFiles] at h
    by_cases h1 : (IGNORE_FILES.contains f.name || startswithDot f.name) = true
    · rw [if_pos h1] at h
      obtain ⟨g, hg, rest⟩ := ih h
      exact ⟨g, List.mem_cons_of_mem f hg, rest⟩
    · rw [if_neg h1] at h
      by_cases h2 : IGNORE_EXTENSIONS.contains (splitext_ext f.name) = true
      · rw [if_pos h2] at h
        obtain ⟨g, hg, rest⟩ := ih h
        exact ⟨g, List.mem_cons_of_mem f hg, rest⟩
      · rw [if_neg h2] at h
        simp only [Bool.not_eq_true] at h1 h2
        cases hc : f.content with
        | none =>
          rw [hc] at h
          obtain ⟨g, hg, rest⟩ := ih h
          exact ⟨g, List.mem_cons_of_mem f hg, rest⟩
        | some c =>
          rw [hc] at h
          rcases List.mem_cons.mp h with heq | htl
          · refine ⟨f, List.mem_cons_self f fs, ?_, ?_, h1, h2⟩
            · rw [heq]
            · rw [heq, hc]
          · obtain ⟨g, hg, rest⟩ := ih htl
            exact ⟨g, List.mem_cons_of_mem f hg, rest⟩

theorem processFiles_mem_intro {rel : PyStr} {files : List FSFile} {f : FSFile}
    {c : PyStr} (hf : f ∈ files)
    (h1 : (IGNORE_FILES.contains f.name || startswithDot f.name) = false)
    (h2 : IGNORE_EXTENSIONS.contains (splitext_ext f.name) = false)
    (hc : f.content = some c) :
    (pyJoinPath rel f.name, c) ∈ processFiles rel files := by
  induction files with
  | nil => cases hf
  | cons g gs ih =>
    rw [processFiles]
    rcases List.mem_cons.mp hf with heq | htl
    · subst heq
      rw [if_neg (by rw [h1]; exact Bool.false_ne_true), hc,
        if_neg (by rw [h2]; exact Bool.false_ne_true)]
      exact List.mem_cons_self _ _
    · by_cases hh1 : (IGNORE_FILES.contains g.name || startswithDot g.name) = true
      · rw [if_pos hh1]
        exact ih htl
      · rw [if_neg hh1]
        by_cases hh2 : IGNORE_EXTENSIONS.contains (splitext_ext g.name) = true
        · rw [if_pos hh2]
          exact ih htl
        · rw [if_neg hh2]
          cases hgc : g.content with
          | none => exact ih htl
          | some cg => exact List.mem_cons_of_mem _ (ih htl)

theorem takeWhile_all {p : Char → Bool} {l : List Char}
    (h : ∀ c ∈ l, p c = true) : l.takeWhile p = l := by
  induction l with
  | nil => rfl
  | cons a l ih =>
    have ha := h a (List.mem_cons_self a l)
    have hl : ∀ c ∈ l, p c = true := fun c hc => h c (List.mem_cons_of_mem a hc)
    rw [List.takeWhile_cons, ha, if_pos rfl, ih hl]

theorem takeWhile_append_stop {p : Char → Bool} {l1 l2 : List Char} {x : Char}
    (h : ∀ c ∈ l1, p c = true) (hx : p x = false) :
    (l1 ++ x :: l2).takeWhile p = l1 := by
  induction l1 with
  | nil =>
    rw [List.nil_append, List.takeWhile_cons, hx, if_neg Bool.false_ne_true]
  | cons a l ih =>
    have ha := h a (List.mem_cons_self a l)
    have hl : ∀ c ∈ l, p c = true := fun c hc => h c (List.mem_cons_of_mem a hc)
    rw [List.cons_append, List.takeWhile_cons, ha, if_pos rfl, ih hl]

theorem pyBasename_joinPath {rel n : PyStr} (h : slashFree n = true) :
    pyBasename (pyJoinPath rel n) = n := by
  have hall : ∀ c ∈ n.reverse, (c != '/') = true := by
    intro c hc
    exact (List.all_eq_true.mp h) c (List.mem_reverse.mp hc)
  rw [pyJoinPath]
  by_cases hr : rel.isEmpty = true
  · rw [if_pos hr, pyBasename, takeWhile_all hall, List.reverse_reverse]
  · rw [if_neg hr, pyBasename, List.reverse_append, List.reverse_cons,
      List.append_assoc, List.singleton_append,
      takeWhile_append_stop hall (by decide), List.reverse_reverse]

/-- The conjunction of the two file filters of lines 64-70 of `main.py`. -/
def fileKeptName (n : PyStr) : Bool :=
  !(IGNORE_FILES.contains n || startswithDot n) &&
    !(IGNORE_EXTENSIONS.contains (splitext_ext n))

mutual
theorem walkTree_keys : ∀ (rel : PyStr) (t : FSTree) (kv : PyStr × PyStr),
    filesOkT t = true → kv ∈ walkTree rel t →
    fileKeptName (pyBasename kv.1) = true
  | rel, .node n fs ds, kv => by
    intro hok hmem
    rw [walkTree] at hmem
    rw [filesOkT, Bool.and_eq_true] at hok
    rcases List.mem_append.mp hmem with h | h
    · obtain ⟨g, hg, hkey, _, h1, h2⟩ := processFiles_mem h
      have hsf : slashFree g.name = true := (List.all_eq_true.mp hok.1) g hg
      rw [hkey, pyBasename_joinPath hsf, fileKeptName, h1, h2]
      rfl
    · exact walkForest_keys rel ds kv hok.2 h
theorem walkForest_keys : ∀ (rel : PyStr) (f : FSForest) (kv : PyStr × PyStr),
    filesOkF f = true → kv ∈ walkForest rel f →
    fileKeptName (pyBasename kv.1) = true
  | rel, .fnil, kv => by
    intro hok hmem
    rw [walkForest] at hmem
    exact absurd hmem (List.not_mem_nil kv)
  | rel, .fcons d ds, kv => by
    intro hok hmem
    rw [walkForest] at hmem
    rw [filesOkF, Bool.and_eq_true] at hok
    rcases List.mem_append.mp hmem with h | h
    · by_cases hk : dirKept d.dname = true
      · rw [if_pos hk] at h
        exact walkTree_keys (pyJoinPath rel d.dname) d kv hok.1 h
      · rw [if_neg hk] at h
        exact absurd h (List.not_mem_nil kv)
    · exact walkForest_keys rel ds kv hok.2 h
end

/-- C4: removing every ignored or dot-named subdirectory wholesale (at any
depth) never changes the result of `read_codebase`, so no file anywhere
under such a subdirectory contributes an entry, regardless of the
subtree's contents; directly, a pruned sibling subdirectory contributes
nothing to the walk. -/
theorem c4_theorem :
    (∀ (p : PyStr) (t : FSTree),
      read_codebase p (some (pruneT t)) = read_codebase p (some t)) ∧
    (∀ (rel : PyStr) (bad : FSTree) (f : FSForest),
      dirKept bad.dname = false →
      walkForest rel (FSForest.fcons bad f) = walkForest rel f) := by
  constructor
  · intro p t
    simp [read_codebase, walkTree_pruneT]
  · intro rel bad f h
    rw [walkForest, if_neg (by rw [h]; exact Bool.false_ne_true),
      List.nil_append]


/-- Name constants for the concrete examples below. -/
def nodeModulesS : PyStr := "node_modules".data

/-- Example file name under the ignored directory. -/
def libJsNameS : PyStr := "lib.js".data

/-- Example content of the ignored-directory file. -/
def libJsContentS : PyStr := "console".data

/-- Example kept python source name. -/
def aPyNameS : PyStr := "a.py".data

/-- Example ignored-extension sibling name. -/
def aYmlNameS : PyStr := "a.yml".data

/-- Example kept sibling name. -/
def aTxtNameS : PyStr := "a.txt".data

/-- Identical content shared by the two siblings. -/
def sharedContentS : PyStr := "shared".data

/-- Example kept root file name. -/
def mainPyNameS : PyStr := "main.py".data

/-- Example kept root file content. -/
def mainPyContentS : PyStr := "print(1)".data

/-- Example root directory name. -/
def projDirS : PyStr := "proj".data

/-- A dependency directory holding one file, used as a concrete pruned
subtree. -/
def exBadDirTree : FSTree :=
  FSTree.node nodeModulesS
    [ FSFile.mk libJsNameS (some libJsContentS) ] FSForest.fnil

/-- C4 witness: the theorem applied to a concrete ignored directory
containing a file. -/
theorem c4_witness :
    dirKept exBadDirTree.dname = false ∧
    walkForest [] (FSForest.fcons exBadDirTree FSForest.fnil) =
      walkForest [] FSForest.fnil :=
  ⟨by decide, c4_theorem.2 [] exBadDirTree FSForest.fnil (by decide)⟩

/-- C5: when the root path does not denote an existing directory,
`read_codebase` prints the not-found error (and then the empty-result
warning) to stderr and returns the empty FileSet; the modelled function
returns normally rather than raising. -/
theorem c5_theorem (p : PyStr) :
    (read_codebase p none).1 = [] ∧
    (read_codebase p none).2 = [dirNotFoundMsg p, noFilesWarnS] := by
  exact ⟨rfl, rfl⟩

/-- A file whose name passes every filter but whose read raises. -/
def exUnreadableFile : FSFile := FSFile.mk aPyNameS none

/-- C6 counterexample: an unreadable file passes all three name filters
yet contributes no entry, so exclusion is not equivalent to the name
filters alone. -/
theorem c6_counterexample :
    ([exUnreadableFile].map FSFile.name).Nodup ∧
    exUnreadableFile ∈ [exUnreadableFile] ∧
    ¬ ((∃ c, (pyJoinPath [] exUnreadableFile.name, c) ∈
          processFiles [] [exUnreadableFile]) ↔
        (IGNORE_FILES.contains exUnreadableFile.name ||
          startswithDot exUnreadableFile.name ||
          IGNORE_EXTENSIONS.contains (lastDotExt exUnreadableFile.name)) = false) := by
  refine ⟨by decide, by decide, ?_⟩
  intro hiff
  obtain ⟨c, hc⟩ := hiff.mpr (by decide)
  rw [show processFiles [] [exUnreadableFile] = [] from by decide] at hc
  exact absurd hc (List.not_mem_nil _)

/-- C6 (amended): for files with pairwise distinct names, a file
encountered in the loop has an entry in the per-directory result exactly
when it passes the three name filters (name not ignored, no leading dot,
last-dot extension not ignored) AND its read succeeds; and a file with an
ignored extension is absent even when a sibling with a different extension
and identical content is present. -/
theorem c6_theorem :
    (∀ (rel : PyStr) (files : List FSFile) (f : FSFile), f ∈ files →
      (files.map FSFile.name).Nodup →
      ((∃ c, (pyJoinPath rel f.name, c) ∈ processFiles rel files) ↔
        ((IGNORE_FILES.contains f.name || startswithDot f.name ||
          IGNORE_EXTENSIONS.contains (lastDotExt f.name)) = false ∧
          f.content ≠ none))) ∧
    processFiles []
      [ FSFile.mk aYmlNameS (some sharedContentS),
        FSFile.mk aTxtNameS (some sharedContentS) ] =
      [ (aTxtNameS, sharedContentS) ] := by
  constructor
  · intro rel files f hf hnd
    constructor
    · rintro ⟨c, hc⟩
      obtain ⟨g, hg, hkey, hcont, h1, h2⟩ := processFiles_mem hc
      have hname : f.name = g.name :=
        pyJoinPath_inj_right (r := rel) hkey
      have hgf : f = g := List.inj_on_of_nodup_map hnd hf hg hname
      subst hgf
      rw [Bool.or_eq_false_iff] at h1
      constructor
      · rw [Bool.or_eq_false_iff, Bool.or_eq_false_iff]
        refine ⟨⟨h1.1, h1.2⟩, ?_⟩
        rw [← splitext_eq_lastDotExt h1.2]
        exact h2
      · rw [hcont]
        exact Option.some_ne_none c
    · rintro ⟨hig, hcont⟩
      rw [Bool.or_eq_false_iff, Bool.or_eq_false_iff] at hig
      cases hfc : f.content with
      | none => exact absurd hfc hcont
      | some c =>
        have h1 : (IGNORE_FILES.contains f.name || startswithDot f.name) = false := by
          rw [Bool.or_eq_false_iff]
          exact hig.1
        have h2 : IGNORE_EXTENSIONS.contains (splitext_ext f.name) = false := by
          rw [splitext_eq_lastDotExt hig.1.2]
          exact hig.2
        exact ⟨c, processFiles_mem_intro hf h1 h2 hfc⟩
  · decide

/-- C6 witness: the amended equivalence applied to a concrete readable,
kept file. -/
theorem c6_witness :
    (FSFile.mk mainPyNameS (some mainPyContentS) ∈
      [ FSFile.mk mainPyNameS (some mainPyContentS) ]) ∧
    (∃ c, (pyJoinPath [] mainPyNameS, c) ∈
      processFiles [] [ FSFile.mk mainPyNameS (some mainPyContentS) ]) := by
  refine ⟨by decide, ?_⟩
  exact (c6_theorem.1 [] [ FSFile.mk mainPyNameS (some mainPyContentS) ]
    (FSFile.mk mainPyNameS (some mainPyContentS)) (by decide)
    (by decide)).mpr ⟨by decide, by decide⟩

/-- C10: under the default filter sets, every key of a `read_codebase`
result (over a tree whose file names are separator-free) has a final
component that is none of the four ignored dependency-manifest names and
whose `splitext` extension is none of the four ignored extensions. -/
theorem c10_theorem (p : PyStr) (t : FSTree) (kv : PyStr × PyStr)
    (hok : filesOkT t = true) (hmem : kv ∈ (read_codebase p (some t)).1) :
    (pyBasename kv.1 ≠ "Cargo.lock".data ∧
      pyBasename kv.1 ≠ "Cargo.toml".data ∧
      pyBasename kv.1 ≠ "package-lock.json".data ∧
      pyBasename kv.1 ≠ "requirements.txt".data) ∧
    (splitext_ext (pyBasename kv.1) ≠ ".o".data ∧
      splitext_ext (pyBasename kv.1) ≠ ".dll".data ∧
      splitext_ext (pyBasename kv.1) ≠ ".exe".data ∧
      splitext_ext (pyBasename kv.1) ≠ ".yml".data) := by
  have hmem2 : kv ∈ walkTree [] t := by
    simpa [read_codebase] using hmem
  have hk := walkTree_keys [] t kv hok hmem2
  rw [fileKeptName, Bool.and_eq_true] at hk
  obtain ⟨hk1, hk2⟩ := hk
  constructor
  · refine ⟨?_, ?_, ?_, ?_⟩ <;>
      (intro heq; rw [heq] at hk1; exact absurd hk1 (by decide))
  · refine ⟨?_, ?_, ?_, ?_⟩ <;>
      (intro heq; rw [heq] at hk2; exact absurd hk2 (by decide))

/-- A small project tree: one kept source file at the root plus a
dependency directory. -/
def exGoodTree : FSTree :=
  FSTree.node projDirS
    [ FSFile.mk mainPyNameS (some mainPyContentS) ]
    (FSForest.fcons exBadDirTree FSForest.fnil)

/-- C10 witness: the theorem applied to a concrete tree and entry. -/
theorem c10_witness :
    filesOkT exGoodTree = true ∧
    (mainPyNameS, mainPyContentS) ∈
      (read_codebase projDirS (some exGoodTree)).1 ∧
    pyBasename mainPyNameS ≠ "Cargo.lock".data := by
  refine ⟨by decide, by decide, ?_⟩
  exact (c10_theorem projDirS exGoodTree (mainPyNameS, mainPyContentS)
    (by decide) (by decide)).1.1

/-- Line 94 of `main.py`: the no-content sentinel. -/
def noContentSentinelS : PyStr :=
  "No code content was read from the directory.".data

/-- Line 96 of `main.py`: the constant header. -/
def promptHeaderS : PyStr := "Project Files:\n\n".data

/-- Lines 98-99 of `main.py`: the section appended for one entry - the
file marker line, then the generic fenced block with the raw content,
then a blank separator line. -/
def promptEntry (file_path content : PyStr) : PyStr :=
  "--- File: ".data ++ file_path ++ " ---\n".data ++
    "```\n".data ++ content ++ "\n```\n\n".data

/-- `format_codebase_for_prompt` from `main.py` (lines 89-101), with the
insertion-ordered dict modelled as a list of key-value pairs. -/
def format_codebase_for_prompt (code_contents : List (PyStr × PyStr)) : PyStr :=
  if code_contents.isEmpty then noContentSentinelS
  else
    code_contents.foldl (fun acc kv => acc ++ promptEntry kv.1 kv.2) promptHeaderS

theorem foldl_append_entries (l : List (PyStr × PyStr)) (init : PyStr) :
    l.foldl (fun acc kv => acc ++ promptEntry kv.1 kv.2) init =
      init ++ pyJoin (l.map fun kv => promptEntry kv.1 kv.2) := by
  induction l generalizing init with
  | nil => simp [pyJoin]
  | cons kv l ih => simp [List.foldl_cons, ih, pyJoin, List.append_assoc]

/-- C7: on the empty FileSet the assembler returns the fixed sentinel,
which is not the empty string; on every non-empty FileSet it returns the
constant header followed by, per entry in order, the file marker line, the
generic fenced content block, and the blank separator (one `promptEntry`
each). -/
theorem c7_theorem :
    (format_codebase_for_prompt [] = noContentSentinelS ∧
      noContentSentinelS ≠ []) ∧
    (∀ l : List (PyStr × PyStr), l ≠ [] →
      format_codebase_for_prompt l =
        promptHeaderS ++ pyJoin (l.map fun kv => promptEntry kv.1 kv.2)) := by
  refine ⟨⟨rfl, by decide⟩, ?_⟩
  intro l hl
  rw [format_codebase_for_prompt,
    if_neg (by simpa [List.isEmpty_iff] using hl)]
  exact foldl_append_entries l promptHeaderS

/-- C7 witness: the theorem applied to a concrete one-entry FileSet. -/
theorem c7_witness :
    ([ (mainPyNameS, mainPyContentS) ] : List (PyStr × PyStr)) ≠ [] ∧
    format_codebase_for_prompt [ (mainPyNameS, mainPyContentS) ] =
      promptHeaderS ++
        pyJoin ([ (mainPyNameS, mainPyContentS) ].map
          fun kv => promptEntry kv.1 kv.2) := by
  refine ⟨by decide, ?_⟩
  exact c7_theorem.2 [ (mainPyNameS, mainPyContentS) ] (by decide)

/-- The `ValueError` message raised at lines 210, 227 and 245 of
`main.py`. -/
def contentNoneMsgS : PyStr := "The response content is None.".data

/-- The `IndexError` raised by `choices[0]` on an empty list. -/
def indexErrorMsgS : PyStr := "IndexError: list index out of range".data

/-- The `KeyError` raised by an absent message/content key. -/
def keyErrorMsgS : PyStr := "KeyError: content".data

/-- The Gemini SDK response as seen by `generate_with_gemini`:
`response.text` is an optional string. -/
structure GeminiResponse where
  text : Option PyStr

/-- `generate_with_gemini` from `main.py` (lines 197-212): raises
`ValueError` when `response.text` is `None` or empty (`if not content`). -/
def generate_with_gemini (response : GeminiResponse) : Except PyStr PyStr :=
  match response.text with
  | none => Except.error contentNoneMsgS
  | some content =>
    if content.isEmpty then Except.error contentNoneMsgS else Except.ok content

/-- One chat-completion choice message: `message.content` is optional. -/
structure ChatMessage where
  content : Option PyStr

/-- An OpenAI-compatible chat completion response. -/
structure ChatCompletion where
  choices : List ChatMessage

/-- `generate_with_openai` from `main.py` (lines 214-229): `choices[0]`
raises `IndexError` on an empty list; a `None` or empty content raises
`ValueError`. -/
def generate_with_openai (response : ChatCompletion) : Except PyStr PyStr :=
  match response.choices with
  | [] => Except.error indexErrorMsgS
  | m :: _ =>
    match m.content with
    | none => Except.error contentNoneMsgS
    | some content =>
      if content.isEmpty then Except.error contentNoneMsgS
      else Except.ok content

/-- `generate_with_groq` from `main.py` (lines 231-247): the same body as
`generate_with_openai`, against the Groq endpoint. -/
def generate_with_groq (response : ChatCompletion) : Except PyStr PyStr :=
  match response.choices with
  | [] => Except.error indexErrorMsgS
  | m :: _ =>
    match m.content with
    | none => Except.error contentNoneMsgS
    | some content =>
      if content.isEmpty then Except.error contentNoneMsgS
      else Except.ok content

/-- Outcome of decoding the Ollama JSON body: a decode failure, or a
decoded body whose `message.content` entry is present or absent. -/
inductive JsonOutcome where
  | decodeError
  | decoded (message_content : Option PyStr)
deriving DecidableEq

/-- Outcome of the HTTP POST performed by `generate_with_ollama`. -/
inductive RequestOutcome where
  | timeout
  | requestError (msg : PyStr)
  | response (json : JsonOutcome)
deriving DecidableEq

/-- `generate_with_ollama` from `main.py` (lines 119-157): every failure -
timeout, request exception (including the bad-status `HTTPError` of
`raise_for_status`), JSON decode error, or missing message/content keys -
is caught by an `except` clause (or the structure check) and yields the
empty string; a present content, even the empty one, is returned. -/
def generate_with_ollama (outcome : RequestOutcome) : Except PyStr PyStr :=
  match outcome with
  | .timeout => Except.ok []
  | .requestError _ => Except.ok []
  | .response .decodeError => Except.ok []
  | .response (.decoded none) => Except.ok []
  | .response (.decoded (some content)) => Except.ok content

/-- The Ollama python-API response seen by `generate_with_ollama_api`
(lines 104-117). -/
structure OllamaApiResponse where
  message_content : Option PyStr

/-- `generate_with_ollama_api` from `main.py` (lines 104-117): it indexes
`response["message"]["content"]` with no error handling at all, so an
absent entry raises `KeyError`. -/
def generate_with_ollama_api (response : OllamaApiResponse) :
    Except PyStr PyStr :=
  match response.message_content with
  | none => Except.error keyErrorMsgS
  | some content => Except.ok content

/-- True when the modelled call returned normally, false when an
exception propagates. -/
def exceptOk {e a : Type} : Except e a → Bool
  | .ok _ => true
  | .error _ => false

/-- C1 counterexample: on an absent completion content the number of
raising adapters among the four dispatchable backends is three (Gemini,
OpenAI and Groq all raise; Ollama HTTP yields the empty string), not
two. -/
theorem c1_counterexample :
    ((if exceptOk (generate_with_gemini (GeminiResponse.mk none))
        then 0 else 1) +
      (if exceptOk (generate_with_openai
          (ChatCompletion.mk [ChatMessage.mk none])) then 0 else 1) +
      (if exceptOk (generate_with_groq
          (ChatCompletion.mk [ChatMessage.mk none])) then 0 else 1) +
      (if exceptOk (generate_with_ollama
          (RequestOutcome.response (JsonOutcome.decoded none)))
        then 0 else 1) : Nat) = 3 := by
  decide

/-- C1 (amended): exactly the three keyed adapters (Gemini, OpenAI, Groq)
raise when the completion content is absent or empty; the default Ollama
HTTP adapter catches every modelled failure (timeout, request error
including bad status, JSON decode failure, unexpected structure) and
returns the empty string; the unused Ollama python-API variant performs no
handling and propagates on absent content. -/
theorem c1_theorem :
    exceptOk (generate_with_gemini (GeminiResponse.mk none)) = false ∧
    exceptOk (generate_with_gemini (GeminiResponse.mk (some []))) = false ∧
    exceptOk (generate_with_openai
      (ChatCompletion.mk [ChatMessage.mk none])) = false ∧
    exceptOk (generate_with_openai
      (ChatCompletion.mk [ChatMessage.mk (some [])])) = false ∧
    exceptOk (generate_with_groq
      (ChatCompletion.mk [ChatMessage.mk none])) = false ∧
    exceptOk (generate_with_groq
      (ChatCompletion.mk [ChatMessage.mk (some [])])) = false ∧
    (∀ outcome : RequestOutcome,
      exceptOk (generate_with_ollama outcome) = true) ∧
    generate_with_ollama RequestOutcome.timeout = Except.ok [] ∧
    (∀ m : PyStr,
      generate_with_ollama (RequestOutcome.requestError m) = Except.ok []) ∧
    generate_with_ollama (RequestOutcome.response JsonOutcome.decodeError) =
      Except.ok [] ∧
    generate_with_ollama (RequestOutcome.response (JsonOutcome.decoded none)) =
      Except.ok [] ∧
    exceptOk (generate_with_ollama_api (OllamaApiResponse.mk none)) = false := by
  refine ⟨rfl, rfl, rfl, rfl, rfl, rfl, ?_, rfl, ?_, rfl, rfl, rfl⟩
  · intro outcome
    cases outcome with
    | timeout => rfl
    | requestError m => rfl
    | response j =>
      cases j with
      | decodeError => rfl
      | decoded mc => cases mc <;> rfl
  · intro m
    rfl

/-- Outcome of the final `open`/`write` of the artifact. -/
inductive WriteOutcome where
  | success
  | ioError (msg : PyStr)
deriving DecidableEq

/-- Message printed at lines 318 and 333 of `main.py`. -/
def savedMsg (path : PyStr) : PyStr :=
  "\nGenerated README.md saved to ".data ++ path

/-- Message printed to stderr at line 320 of `main.py`. -/
def writeErrMsg (path e : PyStr) : PyStr :=
  "\nError writing to output file ".data ++ path ++ ": ".data ++ e

/-- Line 323 of `main.py`: the fixed default output directory. -/
def tmpOutputDirS : PyStr := "/tmp/generated_readme".data

/-- Message printed at line 326 of `main.py`. -/
def dirCreatedMsg : PyStr := "Directory created: ".data ++ tmpOutputDirS

/-- The `.md` suffix appended at line 328 of `main.py`. -/
def mdSuffixS : PyStr := ".md".data

/-- Lines 312-333 of `main.py`: the artifact-writing tail of `__main__`.
`output_file` is the optional `-o` argument; `tmpDirExists` models the
`os.path.isdir` check of line 324; `uuid_name` the fresh `uuid4` stem;
`outcome` whether `open`/`write` raises `IOError`.  The value is the pair
`(stdout, stderr)` when the run continues normally, and the uncaught
exception otherwise: only the explicit-path branch has a `try`/`except
IOError`; the default-path branch has none, so an `IOError` there
propagates. -/
def write_output_step (output_file : Option PyStr) (tmpDirExists : Bool)
    (uuid_name : PyStr) (outcome : WriteOutcome) :
    Except PyStr (List PyStr × List PyStr) :=
  match output_file with
  | some path =>
    match outcome with
    | .success => Except.ok ([path, savedMsg path], [])
    | .ioError e => Except.ok ([path], [writeErrMsg path e])
  | none =>
    let dir_msgs := if tmpDirExists then [] else [dirCreatedMsg]
    let output_path := pyJoinPath tmpOutputDirS (uuid_name ++ mdSuffixS)
    match outcome with
    | .success => Except.ok (dir_msgs ++ [savedMsg output_path], [])
    | .ioError e => Except.error e

/-- An arbitrary uuid stem for the counterexample. -/
def exUuidS : PyStr := "id".data

/-- An arbitrary write-failure reason for the counterexample. -/
def exDiskFullS : PyStr := "disk full".data

/-- C3 counterexample: with no explicit output path, a failing write
propagates out of the modelled `__main__` tail instead of being reported,
so the run terminates abnormally for that input. -/
theorem c3_counterexample :
    exceptOk (write_output_step none true exUuidS
      (WriteOutcome.ioError exDiskFullS)) = false := by
  decide

/-- C3 (amended): when an explicit output path is given, a write failure
is caught, the error is printed to the diagnostic stream and the run
continues normally; when the default temporary-directory path is used, a
write failure propagates and the run terminates abnormally. -/
theorem c3_theorem :
    (∀ (path : PyStr) (tmpDirExists : Bool) (uuid_name e : PyStr),
      write_output_step (some path) tmpDirExists uuid_name
          (WriteOutcome.ioError e) =
        Except.ok ([path], [writeErrMsg path e])) ∧
    (∀ (tmpDirExists : Bool) (uuid_name e : PyStr),
      write_output_step none tmpDirExists uuid_name (WriteOutcome.ioError e) =
        Except.error e) := by
  exact ⟨fun _ _ _ _ => rfl, fun _ _ _ => rfl⟩

/-- C5 witness: the theorem applied to a concrete path. -/
theorem c5_witness :
    (read_codebase projDirS none).1 = [] ∧
    (read_codebase projDirS none).2 = [dirNotFoundMsg projDirS, noFilesWarnS] :=
  c5_theorem projDirS
